import Mathlib

set_option maxRecDepth 100000

/-!
Shallow embedding of `src/midiroll/roll.py` (class `MidiFile`): the event
demultiplexer (`get_events`), the tempo/timing helpers (`get_tempo`,
`get_total_ticks`, `tick2second`), and the piano-roll rasterizer
(`get_roll`).  Machine integers of the Python code are modelled as `Nat`
(all quantities involved are non-negative); the `int8` numpy matrix stores
values through an explicit wrap-around cast `toInt8`; Python exceptions
(`TypeError` from unpacking `-1`, `ZeroDivisionError` from `x / 0.0`) are
modelled with `Except String`.
-/

namespace Midi

/-- The Python class of a mido message object: `Message` (channel messages),
`MetaMessage`, or `UnknownMetaMessage`. -/
inductive MsgClass
  | message
  | metaMessage
  | unknownMetaMessage
deriving DecidableEq, Repr

/-- A Python runtime "type" as far as `get_events` observes it: either the
class of a message instance, or the metaclass (the result of applying
`type` to a *class object* such as `mido.UnknownMetaMessage`). -/
inductive PyClass
  | ofClass (c : MsgClass)
  | typeMetaclass
deriving DecidableEq, Repr

/-- One mido message.  `channel = none` models a message without a `channel`
attribute (reading `.channel` raises `AttributeError`); mido validates
channels into 0–15, hence `Fin 16`.  The remaining fields model the
kind-specific attributes read by `roll.py` (`note`, `velocity`, `control`,
`value`, `program`, `tempo`, and the delta-time `time`). -/
structure Msg where
  type : String
  channel : Option (Fin 16)
  note : Nat
  velocity : Nat
  control : Nat
  value : Nat
  program : Nat
  tempo : Nat
  time : Nat
  cls : MsgClass
deriving DecidableEq, Repr

/-- `type(msg)` for a message instance: its class. -/
def pyTypeOf (m : Msg) : PyClass := PyClass.ofClass m.cls

/-- `type(mido.UnknownMetaMessage)`: applying `type` to the class object
itself yields the metaclass, never a message class. -/
def pyTypeOfUnknownMetaMessageClass : PyClass := PyClass.typeMetaclass

/-- `msg.is_cc(n)` from mido: a control_change with the given control. -/
def Msg.is_cc (m : Msg) (n : Nat) : Bool :=
  m.type = "control_change" && m.control = n

/-! ## Event demultiplexer (`get_events`) -/

/-- State threaded through the demultiplexing loop: the 16 per-channel
event lists and the `self.meta` dict. -/
structure DemuxState where
  events : List (List Msg)
  meta : String → Option Msg

/-- One iteration of the inner loop of `get_events`:
`try: channel = msg.channel; events[channel].append(msg)` and on
`AttributeError` the meta branch
`if type(msg) != type(mido.UnknownMetaMessage): self.meta[msg.type] = msg.dict()`. -/
def demuxMsg (s : DemuxState) (m : Msg) : DemuxState :=
  match m.channel with
  | some ch => { s with events := s.events.set ch.val ((s.events.getD ch.val []) ++ [m]) }
  | none =>
      if pyTypeOf m ≠ pyTypeOfUnknownMetaMessageClass then
        { s with meta := fun k => if k = m.type then some m else s.meta k }
      else s

/-- The full traversal of all tracks, starting from
`events = [[] for i in range(16)]` and an empty `self.meta`. -/
def demux (tracks : List (List Msg)) : DemuxState :=
  tracks.foldl (fun s track => track.foldl demuxMsg s)
    { events := List.replicate 16 [], meta := fun _ => none }

/-- `get_events`: demultiplex, drop empty channels
(`events = list(filter(None, events))`), and return `(events, len(events))`. -/
def get_events (tracks : List (List Msg)) : List (List Msg) × Nat :=
  let evs := (demux tracks).events.filter (fun c => !c.isEmpty)
  (evs, evs.length)

/-- The `self.meta` dict as left by `get_events`. -/
def events_meta (tracks : List (List Msg)) : String → Option Msg :=
  (demux tracks).meta

/-! ## Tempo and total length -/

/-- `get_tempo`: `self.meta["set_tempo"]["tempo"]`, defaulting to 500000
when the lookup fails. -/
def get_tempo (meta : String → Option Msg) : Nat :=
  match meta "set_tempo" with
  | some m => m.tempo
  | none => 500000

/-- `get_total_ticks`: running maximum over the channels of the sum of each
channel's message times. -/
def get_total_ticks (events : List (List Msg)) : Nat :=
  events.foldl (fun max_ticks channel =>
    let ticks := (channel.map Msg.time).sum
    if ticks > max_ticks then ticks else max_ticks) 0

/-- `mido.tick2second(tick, ticks_per_beat, tempo)` in exact arithmetic:
`tick * (tempo * 1e-6 / ticks_per_beat)`, i.e. the rational
`ticks * tempo / (ticks_per_beat * 1000000)`. -/
def tick2second (ticks ticks_per_beat tempo : Nat) : ℚ :=
  mkRat (ticks * tempo) (ticks_per_beat * 1000000)

/-! ## The roll matrix -/

/-- Storing a value into a numpy `int8` cell wraps it into `[-128, 127]`. -/
def toInt8 (v : Int) : Int := (v + 128) % 256 - 128

/-- The numpy array `np.zeros((nch, 128, length_ticks // sr), dtype="int8")`:
fixed dimensions plus the cell contents.  Slice assignment mutates only
`data`, never the shape. -/
structure Roll where
  nch : Nat
  npitch : Nat
  ncols : Nat
  data : Nat → Nat → Nat → Int

/-- `np.zeros`. -/
def Roll.zeros (nch npitch ncols : Nat) : Roll :=
  ⟨nch, npitch, ncols, fun _ _ _ => 0⟩

/-- `roll[c, p, a:b] = v`: numpy clips the slice at the array length, and the
stored value passes through the `int8` cast. -/
def Roll.paint (r : Roll) (c p a b : Nat) (v : Nat) : Roll :=
  { r with data := fun c' p' t =>
      if c' = c ∧ p' = p ∧ a ≤ t ∧ t < min b r.ncols then toInt8 (v : Int)
      else r.data c' p' t }

/-- `roll[c, p, a:] = v`. -/
def Roll.paintTail (r : Roll) (c p a : Nat) (v : Nat) : Roll :=
  r.paint c p a r.ncols v

/-! ## Rasterizer state -/

/-- One slot of `register_note`: `-1` or a pair `(end_time, intensity)`. -/
inductive Reg
  | inactive
  | active (endBin : Nat) (intensity : Nat)
deriving DecidableEq, Repr

/-- The mutable state of `get_roll` (plus the `self.intensity_range` /
`self.note_range` fields initialised in `__init__` and mutated from inside
`get_roll`).  `register_note` is created once, *outside* the per-channel
loop, exactly as in the source. -/
structure RollState where
  roll : Roll
  register_note : List Reg
  register_timbre : Nat → Nat
  intensity_range : Nat × Nat
  note_range : Nat × Nat
  time_counter : Nat
  volume : Nat

/-- `intensity = volume * msg.velocity // 127` as computed in the note_on
branch. -/
def msgIntensity (s : RollState) (m : Msg) : Nat :=
  s.volume * m.velocity / 127

/-- The two `if msg.is_cc(...)` statements of the control_change branch. -/
def stepCC (m : Msg) (s : RollState) : RollState :=
  if m.type = "control_change" then
    let v1 := if m.control = 7 then 100 * m.value / 127 else s.volume
    let v2 := if m.control = 11 then v1 * (m.value / 127) else v1
    { s with volume := v2 }
  else s

/-- The program_change branch: `register_timbre[idx] = msg.program`. -/
def stepPC (idx : Nat) (m : Msg) (s : RollState) : RollState :=
  if m.type = "program_change" then
    { s with register_timbre := fun i => if i = idx then m.program else s.register_timbre i }
  else s

/-- The two range-tightening `if`s on `self.intensity_range`. -/
def updateIntensityRange (ir : Nat × Nat) (intensity : Nat) : Nat × Nat :=
  let lo := if ir.1 > intensity then intensity else ir.1
  let hi := if ir.2 < intensity then intensity else ir.2
  (lo, hi)

/-- The two range-tightening `if`s on `self.note_range`. -/
def updateNoteRange (nr : Nat × Nat) (note : Nat) : Nat × Nat :=
  let lo := if nr.1 > note then note else nr.1
  let hi := if nr.2 < note then note else nr.2
  (lo, hi)

/-- The note_on branch, statement for statement: compute `note_on_end_time`
and `intensity`, tighten `intensity_range`, paint the previous segment when
the register slot is not `-1`, store the new `(end, intensity)` pair, then
tighten `note_range`. -/
def stepNoteOn (sr idx : Nat) (m : Msg) (s : RollState) : RollState :=
  if m.type = "note_on" then
    let note_on_end_time := (s.time_counter + m.time) / sr
    let intensity := msgIntensity s m
    let ir := updateIntensityRange s.intensity_range intensity
    let roll :=
      match s.register_note.getD m.note Reg.inactive with
      | Reg.inactive => s.roll
      | Reg.active last_end_time last_intensity =>
          s.roll.paint idx m.note last_end_time note_on_end_time last_intensity
    let reg := s.register_note.set m.note (Reg.active note_on_end_time intensity)
    let nr := updateNoteRange s.note_range m.note
    { s with roll := roll, register_note := reg, intensity_range := ir, note_range := nr }
  else s

/-- The note_off branch.  The source unpacks
`last_end_time, last_intensity = register_note[msg.note]` with no guard, so
a slot holding `-1` raises `TypeError: cannot unpack non-iterable int`. -/
def stepNoteOff (sr idx : Nat) (m : Msg) (s : RollState) : Except String RollState :=
  if m.type = "note_off" then
    let note_off_end_time := (s.time_counter + m.time) / sr
    match s.register_note.getD m.note Reg.inactive with
    | Reg.inactive => Except.error "TypeError"
    | Reg.active last_end_time last_intensity =>
        Except.ok { s with
          roll := s.roll.paint idx m.note last_end_time note_off_end_time last_intensity,
          register_note := s.register_note.set m.note Reg.inactive }
  else Except.ok s

/-- One iteration of `for msg in channel`: the four type-tested branches in
source order, then `time_counter += msg.time`. -/
def step (sr idx : Nat) (s : RollState) (m : Msg) : Except String RollState :=
  match stepNoteOff sr idx m (stepNoteOn sr idx m (stepPC idx m (stepCC m s))) with
  | Except.error e => Except.error e
  | Except.ok s4 => Except.ok { s4 with time_counter := s4.time_counter + m.time }

/-- One iteration of the trailing
`for key, data in enumerate(register_note)` loop.  Note the source writes
`register_note[idx] = -1` (the *channel* index), not `register_note[key]`,
and `enumerate` reads the live list, so the read below uses the current
state. -/
def closeKey (idx : Nat) (s : RollState) (key : Nat) : RollState :=
  let s1 :=
    match s.register_note.getD key Reg.inactive with
    | Reg.inactive => s
    | Reg.active note_on_end_time intensity =>
        { s with roll := s.roll.paintTail idx key note_on_end_time intensity }
  { s1 with register_note := s1.register_note.set idx Reg.inactive }

/-- The full trailing loop over the 128 register slots. -/
def closeChannel (idx : Nat) (s : RollState) : RollState :=
  (List.range 128).foldl (closeKey idx) s

/-- `for msg in channel`: run `step` over the messages in order, propagating
a raised exception. -/
def runMsgs (sr idx : Nat) (s : RollState) : List Msg → Except String RollState
  | [] => Except.ok s
  | m :: rest =>
      match step sr idx s m with
      | Except.error e => Except.error e
      | Except.ok s' => runMsgs sr idx s' rest

/-- One iteration of `for idx, channel in enumerate(events)`: reset
`time_counter` and `volume`, run the channel's messages, then run the
unclosed-note loop. -/
def runChannel (sr idx : Nat) (s : RollState) (channel : List Msg) :
    Except String RollState :=
  match runMsgs sr idx { s with time_counter := 0, volume := 100 } channel with
  | Except.error e => Except.error e
  | Except.ok s1 => Except.ok (closeChannel idx s1)

/-- The channel loop itself, with `idx` tracking `enumerate`. -/
def runChannels (sr : Nat) (s : RollState) (idx : Nat) :
    List (List Msg) → Except String RollState
  | [] => Except.ok s
  | ch :: rest =>
      match runChannel sr idx s ch with
      | Except.error e => Except.error e
      | Except.ok s' => runChannels sr s' (idx + 1) rest

/-- The state at entry of `get_roll`: the zero matrix
`np.zeros((nch, 128, length_ticks // sr), "int8")`, `register_note = [-1]*128`,
`register_timbre = np.ones(nch)`, and the `intensity_range` / `note_range`
sentinels set by `__init__`. -/
def initRollState (nch ncols : Nat) : RollState where
  roll := Roll.zeros nch 128 ncols
  register_note := List.replicate 128 Reg.inactive
  register_timbre := fun _ => 1
  intensity_range := (100, 0)
  note_range := (127, 0)
  time_counter := 0
  volume := 100

/-- `get_roll(events)`: `sr` is `self.sr` (10 in the source). -/
def get_roll (sr : Nat) (events : List (List Msg)) : Except String RollState :=
  let length_ticks := get_total_ticks events
  runChannels sr (initRollState events.length (length_ticks / sr)) 0 events

/-! ## `MidiFile.__init__` -/

/-- The fields of the constructed performance object that the core computes. -/
structure PerfObj where
  events : List (List Msg)
  nch : Nat
  meta : String → Option Msg
  rollState : RollState
  length_ticks : Nat
  length_seconds : ℚ
  ticks_per_sec : ℚ

/-- `MidiFile.__init__` after parsing: `get_events`, `get_roll`,
`length_ticks`, `length_seconds`, and finally
`ticks_per_sec = length_ticks / length_seconds`, which raises
`ZeroDivisionError` when `length_seconds` is zero. -/
def midiFileInit (sr ticks_per_beat : Nat) (tracks : List (List Msg)) :
    Except String PerfObj :=
  let ev := get_events tracks
  let meta := events_meta tracks
  match get_roll sr ev.1 with
  | Except.error e => Except.error e
  | Except.ok st =>
      let length_ticks := get_total_ticks ev.1
      let length_seconds := tick2second length_ticks ticks_per_beat (get_tempo meta)
      if length_seconds = 0 then Except.error "ZeroDivisionError"
      else Except.ok {
        events := ev.1, nch := ev.2, meta := meta, rollState := st,
        length_ticks := length_ticks, length_seconds := length_seconds,
        ticks_per_sec := (length_ticks : ℚ) / length_seconds }

/-! ## Observation helpers (projections through `Except`) -/

/-- Whether a rasterization run succeeded. -/
def exceptOk (e : Except String RollState) : Bool :=
  match e with
  | Except.ok _ => true
  | Except.error _ => false

/-- The error string of a rasterization run, when it failed. -/
def errOf (e : Except String RollState) : Option String :=
  match e with
  | Except.ok _ => none
  | Except.error s => some s

/-- The register slot for a pitch, observed through `Except`. -/
def regAt (e : Except String RollState) (n : Nat) : Option Reg :=
  match e with
  | Except.ok st => some (st.register_note.getD n Reg.inactive)
  | Except.error _ => none

/-- A cell of the roll matrix, observed through `Except`. -/
def cellAt (e : Except String RollState) (c p t : Nat) : Option Int :=
  match e with
  | Except.ok st => some (st.roll.data c p t)
  | Except.error _ => none

/-- The error string of `midiFileInit`, when it failed. -/
def initErr (e : Except String PerfObj) : Option String :=
  match e with
  | Except.ok _ => none
  | Except.error s => some s

/-- The success state of a rasterization run (dummy on failure); used to
name the concrete state a successful concrete run produces. -/
def okState (e : Except String RollState) : RollState :=
  match e with
  | Except.ok st => st
  | Except.error _ => initRollState 0 0

/-! ## Sample messages for concrete runs -/

/-- A note_on message on channel 0. -/
def msgNoteOn (note velocity time : Nat) : Msg where
  type := "note_on"
  channel := some 0
  note := note
  velocity := velocity
  control := 0
  value := 0
  program := 0
  tempo := 0
  time := time
  cls := MsgClass.message

/-- A note_off message on channel 0. -/
def msgNoteOff (note time : Nat) : Msg where
  type := "note_off"
  channel := some 0
  note := note
  velocity := 0
  control := 0
  value := 0
  program := 0
  tempo := 0
  time := time
  cls := MsgClass.message

/-- A control_change message on channel 0. -/
def msgCC (control value time : Nat) : Msg where
  type := "control_change"
  channel := some 0
  note := 0
  velocity := 0
  control := control
  value := value
  program := 0
  tempo := 0
  time := time
  cls := MsgClass.message

/-- An `UnknownMetaMessage`: no channel attribute, class
`UnknownMetaMessage`, type name `unknown_meta`. -/
def msgUnknownMeta : Msg where
  type := "unknown_meta"
  channel := none
  note := 0
  velocity := 0
  control := 0
  value := 0
  program := 0
  tempo := 0
  time := 0
  cls := MsgClass.unknownMetaMessage

/-! ## List helpers -/

theorem set_getD_same {α : Type} (l : List α) (i : Nat) (a d : α)
    (h : i < l.length) : (l.set i a).getD i d = a := by
  induction l generalizing i with
  | nil => simp at h
  | cons x xs ih =>
      cases i with
      | zero => rfl
      | succ n => simpa using ih n (by simpa using h)

theorem set_getD_ne {α : Type} (l : List α) (i j : Nat) (a d : α)
    (h : i ≠ j) : (l.set i a).getD j d = l.getD j d := by
  induction l generalizing i j with
  | nil => rfl
  | cons x xs ih =>
      cases i with
      | zero =>
          cases j with
          | zero => exact absurd rfl h
          | succ n => rfl
      | succ n =>
          cases j with
          | zero => rfl
          | succ k => simpa using ih n k (fun hh => h (by rw [hh]))

theorem getD_replicate_self {α : Type} (n i : Nat) (a : α) :
    (List.replicate n a).getD i a = a := by
  induction n generalizing i with
  | zero => rfl
  | succ k ih =>
      cases i with
      | zero => rfl
      | succ j => exact ih j

/-! ## Branch-skipping lemmas -/

theorem stepCC_of_ne (m : Msg) (s : RollState) (h : m.type ≠ "control_change") :
    stepCC m s = s := by
  unfold stepCC; rw [if_neg h]

theorem stepPC_of_ne (idx : Nat) (m : Msg) (s : RollState)
    (h : m.type ≠ "program_change") : stepPC idx m s = s := by
  unfold stepPC; rw [if_neg h]

theorem stepNoteOn_of_ne (sr idx : Nat) (m : Msg) (s : RollState)
    (h : m.type ≠ "note_on") : stepNoteOn sr idx m s = s := by
  unfold stepNoteOn; rw [if_neg h]

theorem stepNoteOff_of_ne (sr idx : Nat) (m : Msg) (s : RollState)
    (h : m.type ≠ "note_off") : stepNoteOff sr idx m s = Except.ok s := by
  unfold stepNoteOff; rw [if_neg h]

/-! ## Field-preservation lemmas for the step components -/

theorem stepCC_fields (m : Msg) (s : RollState) :
    (stepCC m s).roll = s.roll ∧ (stepCC m s).register_note = s.register_note ∧
    (stepCC m s).intensity_range = s.intensity_range ∧
    (stepCC m s).note_range = s.note_range ∧
    (stepCC m s).time_counter = s.time_counter := by
  unfold stepCC; split <;> exact ⟨rfl, rfl, rfl, rfl, rfl⟩

theorem stepPC_fields (idx : Nat) (m : Msg) (s : RollState) :
    (stepPC idx m s).roll = s.roll ∧ (stepPC idx m s).register_note = s.register_note ∧
    (stepPC idx m s).intensity_range = s.intensity_range ∧
    (stepPC idx m s).note_range = s.note_range ∧
    (stepPC idx m s).time_counter = s.time_counter ∧
    (stepPC idx m s).volume = s.volume := by
  unfold stepPC; split <;> exact ⟨rfl, rfl, rfl, rfl, rfl, rfl⟩

theorem stepNoteOn_fields (sr idx : Nat) (m : Msg) (s : RollState) :
    (stepNoteOn sr idx m s).volume = s.volume ∧
    (stepNoteOn sr idx m s).time_counter = s.time_counter ∧
    (stepNoteOn sr idx m s).roll.nch = s.roll.nch ∧
    (stepNoteOn sr idx m s).roll.npitch = s.roll.npitch ∧
    (stepNoteOn sr idx m s).roll.ncols = s.roll.ncols ∧
    (stepNoteOn sr idx m s).register_note.length = s.register_note.length := by
  unfold stepNoteOn
  split
  · refine ⟨rfl, rfl, ?_, ?_, ?_, by simp⟩ <;> (dsimp only; split <;> rfl)
  · exact ⟨rfl, rfl, rfl, rfl, rfl, rfl⟩

theorem stepNoteOff_ok_fields (sr idx : Nat) (m : Msg) (s s' : RollState)
    (h : stepNoteOff sr idx m s = Except.ok s') :
    s'.volume = s.volume ∧ s'.time_counter = s.time_counter ∧
    s'.intensity_range = s.intensity_range ∧ s'.note_range = s.note_range ∧
    s'.roll.nch = s.roll.nch ∧ s'.roll.npitch = s.roll.npitch ∧
    s'.roll.ncols = s.roll.ncols ∧
    s'.register_note.length = s.register_note.length := by
  unfold stepNoteOff at h
  split at h
  · split at h
    · exact absurd h (by simp)
    · injection h with h
      subst h
      exact ⟨rfl, rfl, rfl, rfl, rfl, rfl, rfl, by simp⟩
  · injection h with h
    subst h
    exact ⟨rfl, rfl, rfl, rfl, rfl, rfl, rfl, rfl⟩

theorem step_ok_decomp (sr idx : Nat) (s : RollState) (m : Msg) (s' : RollState)
    (h : step sr idx s m = Except.ok s') :
    ∃ s4, stepNoteOff sr idx m (stepNoteOn sr idx m (stepPC idx m (stepCC m s))) =
        Except.ok s4 ∧
      s' = { s4 with time_counter := s4.time_counter + m.time } := by
  unfold step at h
  split at h
  · exact absurd h (by simp)
  · next s4 heq =>
      injection h with h
      exact ⟨s4, heq, h.symm⟩

theorem step_fields (sr idx : Nat) (s : RollState) (m : Msg) (s' : RollState)
    (h : step sr idx s m = Except.ok s') :
    s'.roll.nch = s.roll.nch ∧ s'.roll.npitch = s.roll.npitch ∧
    s'.roll.ncols = s.roll.ncols ∧
    s'.register_note.length = s.register_note.length ∧
    s'.volume = (stepCC m s).volume ∧
    s'.time_counter = s.time_counter + m.time := by
  obtain ⟨s4, h4, rfl⟩ := step_ok_decomp sr idx s m s' h
  obtain ⟨hv, ht, _, _, hn, hp, hc, hl⟩ :=
    stepNoteOff_ok_fields sr idx m (stepNoteOn sr idx m (stepPC idx m (stepCC m s))) s4 h4
  obtain ⟨hv1, ht1, hn1, hp1, hc1, hl1⟩ := stepNoteOn_fields sr idx m (stepPC idx m (stepCC m s))
  obtain ⟨hr2, hreg2, _, _, ht2, hv2⟩ := stepPC_fields idx m (stepCC m s)
  obtain ⟨hr3, hreg3, _, _, ht3⟩ := stepCC_fields m s
  refine ⟨?_, ?_, ?_, ?_, ?_, ?_⟩
  · rw [hn, hn1, hr2, hr3]
  · rw [hp, hp1, hr2, hr3]
  · rw [hc, hc1, hr2, hr3]
  · rw [hl, hl1, hreg2, hreg3]
  · rw [hv, hv1, hv2]
  · show s4.time_counter + m.time = s.time_counter + m.time
    rw [ht, ht1, ht2, ht3]

/-! ## Range-tracker lemmas -/

theorem updateIntensityRange_spec (ir : Nat × Nat) (i : Nat) :
    (updateIntensityRange ir i).1 ≤ ir.1 ∧ ir.2 ≤ (updateIntensityRange ir i).2 ∧
    (updateIntensityRange ir i).1 ≤ i ∧ i ≤ (updateIntensityRange ir i).2 := by
  unfold updateIntensityRange
  refine ⟨?_, ?_, ?_, ?_⟩ <;> dsimp only <;> split <;> omega

theorem updateNoteRange_spec (nr : Nat × Nat) (n : Nat) :
    (updateNoteRange nr n).1 ≤ nr.1 ∧ nr.2 ≤ (updateNoteRange nr n).2 ∧
    (updateNoteRange nr n).1 ≤ n ∧ n ≤ (updateNoteRange nr n).2 := by
  unfold updateNoteRange
  refine ⟨?_, ?_, ?_, ?_⟩ <;> dsimp only <;> split <;> omega

theorem stepNoteOn_ranges_eq (sr idx : Nat) (m : Msg) (s : RollState)
    (hm : m.type = "note_on") :
    (stepNoteOn sr idx m s).intensity_range =
      updateIntensityRange s.intensity_range (msgIntensity s m) ∧
    (stepNoteOn sr idx m s).note_range = updateNoteRange s.note_range m.note := by
  unfold stepNoteOn
  rw [if_pos hm]
  exact ⟨rfl, rfl⟩

theorem step_ranges (sr idx : Nat) (s : RollState) (m : Msg) (s' : RollState)
    (h : step sr idx s m = Except.ok s') :
    s'.intensity_range.1 ≤ s.intensity_range.1 ∧
    s.intensity_range.2 ≤ s'.intensity_range.2 ∧
    s'.note_range.1 ≤ s.note_range.1 ∧ s.note_range.2 ≤ s'.note_range.2 ∧
    (m.type ≠ "note_on" →
        s'.intensity_range = s.intensity_range ∧ s'.note_range = s.note_range) ∧
    (m.type = "note_on" →
        s'.intensity_range.1 ≤ s'.intensity_range.2 ∧
        s'.note_range.1 ≤ s'.note_range.2) := by
  obtain ⟨s4, h4, rfl⟩ := step_ok_decomp sr idx s m s' h
  obtain ⟨_, _, hir4, hnr4, _, _, _, _⟩ :=
    stepNoteOff_ok_fields sr idx m (stepNoteOn sr idx m (stepPC idx m (stepCC m s))) s4 h4
  obtain ⟨_, _, hirP, hnrP, _, _⟩ := stepPC_fields idx m (stepCC m s)
  obtain ⟨_, _, hirC, hnrC, _⟩ := stepCC_fields m s
  by_cases hm : m.type = "note_on"
  · obtain ⟨hir, hnr⟩ := stepNoteOn_ranges_eq sr idx m (stepPC idx m (stepCC m s)) hm
    have hireq : s4.intensity_range =
        updateIntensityRange s.intensity_range (msgIntensity s m) := by
      rw [hir4, hir, hirP, hirC]
      have hv : (stepPC idx m (stepCC m s)).volume = s.volume := by
        rw [(stepPC_fields idx m (stepCC m s)).2.2.2.2.2,
          stepCC_of_ne m s (by rw [hm]; decide)]
      unfold msgIntensity
      rw [hv]
    have hnreq : s4.note_range = updateNoteRange s.note_range m.note := by
      rw [hnr4, hnr, hnrP, hnrC]
    obtain ⟨hu1, hu2, hu3, hu4⟩ :=
      updateIntensityRange_spec s.intensity_range (msgIntensity s m)
    obtain ⟨hw1, hw2, hw3, hw4⟩ := updateNoteRange_spec s.note_range m.note
    refine ⟨?_, ?_, ?_, ?_, fun hc => absurd hm hc, fun _ => ⟨?_, ?_⟩⟩ <;>
      simp only [hireq, hnreq] <;> omega
  · have hnoOn := stepNoteOn_of_ne sr idx m (stepPC idx m (stepCC m s)) hm
    have hir : s4.intensity_range = s.intensity_range := by
      rw [hir4, hnoOn, hirP, hirC]
    have hnr : s4.note_range = s.note_range := by
      rw [hnr4, hnoOn, hnrP, hnrC]
    exact ⟨by rw [hir], by rw [hir], by rw [hnr], by rw [hnr],
      fun _ => ⟨by rw [hir], by rw [hnr]⟩, fun hc => absurd hc hm⟩

/-! ## Volume lemmas -/

theorem stepCC_volume_cc11 (m : Msg) (s : RollState)
    (hm : m.type = "control_change") (hc : m.control = 11) :
    (stepCC m s).volume = s.volume * (m.value / 127) := by
  unfold stepCC
  simp [hm, hc]

theorem stepCC_volume_zero (m : Msg) (s : RollState) (h0 : s.volume = 0)
    (h7 : ¬(m.type = "control_change" ∧ m.control = 7)) :
    (stepCC m s).volume = 0 := by
  unfold stepCC
  split
  · next hcc =>
      have hc7 : ¬ m.control = 7 := fun hh => h7 ⟨hcc, hh⟩
      dsimp only
      rw [if_neg hc7, h0]
      split <;> simp
  · exact h0

theorem stepCC_volume_le (m : Msg) (s : RollState) (hval : m.value ≤ 127)
    (hvol : s.volume ≤ 100) : (stepCC m s).volume ≤ 100 := by
  unfold stepCC
  split
  · dsimp only
    have h1 : 100 * m.value / 127 ≤ 100 := by
      calc 100 * m.value / 127 ≤ 100 * 127 / 127 :=
            Nat.div_le_div_right (Nat.mul_le_mul_left 100 hval)
        _ = 100 := by norm_num
    have h2 : m.value / 127 ≤ 1 := by
      calc m.value / 127 ≤ 127 / 127 := Nat.div_le_div_right hval
        _ = 1 := by norm_num
    split
    · split
      · calc 100 * m.value / 127 * (m.value / 127) ≤ 100 * m.value / 127 * 1 :=
              Nat.mul_le_mul_left _ h2
          _ ≤ 100 := by rw [Nat.mul_one]; exact h1
      · calc s.volume * (m.value / 127) ≤ s.volume * 1 := Nat.mul_le_mul_left _ h2
          _ ≤ 100 := by rw [Nat.mul_one]; exact hvol
    · split
      · exact h1
      · exact hvol
  · exact hvol

theorem step_volume_zero (sr idx : Nat) (s : RollState) (m : Msg) (s' : RollState)
    (h : step sr idx s m = Except.ok s') (h0 : s.volume = 0)
    (h7 : ¬(m.type = "control_change" ∧ m.control = 7)) : s'.volume = 0 := by
  rw [(step_fields sr idx s m s' h).2.2.2.2.1]
  exact stepCC_volume_zero m s h0 h7

/-! ## Loop-level preservation lemmas -/

theorem runMsgs_fields (sr idx : Nat) (msgs : List Msg) :
    ∀ s s', runMsgs sr idx s msgs = Except.ok s' →
      s'.roll.nch = s.roll.nch ∧ s'.roll.npitch = s.roll.npitch ∧
      s'.roll.ncols = s.roll.ncols ∧
      s'.register_note.length = s.register_note.length := by
  induction msgs with
  | nil =>
      intro s s' h
      injection h with h
      subst h
      exact ⟨rfl, rfl, rfl, rfl⟩
  | cons m rest ih =>
      intro s s' h
      unfold runMsgs at h
      split at h
      · exact absurd h (by simp)
      · next s1 heq =>
          obtain ⟨a, b, c, d⟩ := ih s1 s' h
          obtain ⟨a2, b2, c2, d2, _, _⟩ := step_fields sr idx s m s1 heq
          exact ⟨a.trans a2, b.trans b2, c.trans c2, d.trans d2⟩

theorem closeKey_fields (idx : Nat) (s : RollState) (key : Nat) :
    (closeKey idx s key).roll.nch = s.roll.nch ∧
    (closeKey idx s key).roll.npitch = s.roll.npitch ∧
    (closeKey idx s key).roll.ncols = s.roll.ncols ∧
    (closeKey idx s key).register_note.length = s.register_note.length ∧
    (closeKey idx s key).volume = s.volume ∧
    (closeKey idx s key).time_counter = s.time_counter ∧
    (closeKey idx s key).intensity_range = s.intensity_range ∧
    (closeKey idx s key).note_range = s.note_range := by
  refine ⟨?_, ?_, ?_, ?_, ?_, ?_, ?_, ?_⟩ <;>
    (unfold closeKey; dsimp only; split <;> simp [Roll.paintTail, Roll.paint])

theorem closeChannel_fields (idx : Nat) (s : RollState) :
    (closeChannel idx s).roll.nch = s.roll.nch ∧
    (closeChannel idx s).roll.npitch = s.roll.npitch ∧
    (closeChannel idx s).roll.ncols = s.roll.ncols ∧
    (closeChannel idx s).register_note.length = s.register_note.length ∧
    (closeChannel idx s).volume = s.volume ∧
    (closeChannel idx s).time_counter = s.time_counter ∧
    (closeChannel idx s).intensity_range = s.intensity_range ∧
    (closeChannel idx s).note_range = s.note_range := by
  unfold closeChannel
  generalize List.range 128 = l
  induction l generalizing s with
  | nil => exact ⟨rfl, rfl, rfl, rfl, rfl, rfl, rfl, rfl⟩
  | cons k ks ih =>
      rw [List.foldl_cons]
      obtain ⟨a, b, c, d, e, f, g, i⟩ := ih (closeKey idx s k)
      obtain ⟨a2, b2, c2, d2, e2, f2, g2, i2⟩ := closeKey_fields idx s k
      exact ⟨a.trans a2, b.trans b2, c.trans c2, d.trans d2, e.trans e2,
        f.trans f2, g.trans g2, i.trans i2⟩

theorem runChannel_fields (sr idx : Nat) (s : RollState) (ch : List Msg)
    (s' : RollState) (h : runChannel sr idx s ch = Except.ok s') :
    s'.roll.nch = s.roll.nch ∧ s'.roll.npitch = s.roll.npitch ∧
    s'.roll.ncols = s.roll.ncols ∧
    s'.register_note.length = s.register_note.length := by
  unfold runChannel at h
  split at h
  · exact absurd h (by simp)
  · next s1 heq =>
      injection h with h
      subst h
      obtain ⟨a, b, c, d, _, _, _, _⟩ := closeChannel_fields idx s1
      obtain ⟨a2, b2, c2, d2⟩ :=
        runMsgs_fields sr idx ch { s with time_counter := 0, volume := 100 } s1 heq
      exact ⟨a.trans a2, b.trans b2, c.trans c2, d.trans d2⟩

theorem runChannels_fields (sr : Nat) (chs : List (List Msg)) :
    ∀ idx s s', runChannels sr s idx chs = Except.ok s' →
      s'.roll.nch = s.roll.nch ∧ s'.roll.npitch = s.roll.npitch ∧
      s'.roll.ncols = s.roll.ncols ∧
      s'.register_note.length = s.register_note.length := by
  induction chs with
  | nil =>
      intro idx s s' h
      injection h with h
      subst h
      exact ⟨rfl, rfl, rfl, rfl⟩
  | cons ch rest ih =>
      intro idx s s' h
      unfold runChannels at h
      split at h
      · exact absurd h (by simp)
      · next s1 heq =>
          obtain ⟨a, b, c, d⟩ := ih (idx + 1) s1 s' h
          obtain ⟨a2, b2, c2, d2⟩ := runChannel_fields sr idx s ch s1 heq
          exact ⟨a.trans a2, b.trans b2, c.trans c2, d.trans d2⟩

theorem get_roll_dims (sr : Nat) (events : List (List Msg)) (st : RollState)
    (h : get_roll sr events = Except.ok st) :
    st.roll.nch = events.length ∧ st.roll.npitch = 128 ∧
    st.roll.ncols = get_total_ticks events / sr ∧
    st.register_note.length = 128 := by
  unfold get_roll at h
  obtain ⟨a, b, c, d⟩ := runChannels_fields sr events 0
    (initRollState events.length (get_total_ticks events / sr)) st h
  refine ⟨a.trans rfl, b.trans rfl, c.trans rfl, d.trans (by simp [initRollState])⟩

theorem runMsgs_volume_zero (sr idx : Nat) (msgs : List Msg) :
    ∀ s s', s.volume = 0 →
      (∀ x ∈ msgs, ¬(x.type = "control_change" ∧ x.control = 7)) →
      runMsgs sr idx s msgs = Except.ok s' → s'.volume = 0 := by
  induction msgs with
  | nil =>
      intro s s' h0 _ h
      injection h with h
      subst h
      exact h0
  | cons m rest ih =>
      intro s s' h0 hno h
      unfold runMsgs at h
      split at h
      · exact absurd h (by simp)
      · next s1 heq =>
          exact ih s1 s' (step_volume_zero sr idx s m s1 heq h0 (hno m (by simp)))
            (fun x hx => hno x (by simp [hx])) h

/-! ## Claim theorems -/

/-- The two-channel input exhibiting register carry-over: channel 0 leaves
pitch 5 registered, channel 1 re-uses it. -/
def c1Events : List (List Msg) := [[msgNoteOn 5 100 0], [msgNoteOn 5 50 10]]

/-- C1: the claim that the `NoteRegister` is reset per channel pass fails on
the code.  After the complete run over `c1Events` (so after the *last*
channel's pass, which ends with the trailing cleanup loop), pitch 5's
register slot is still `Active(1, 39)` — the cleanup loop writes
`register_note[idx] = -1` instead of `register_note[key] = -1` — and
channel 1's row holds the intensity 78 painted from channel 0's carried-over
register state (a claim-conforming run would leave that cell 0). -/
theorem c1_register_carryover :
    regAt (get_roll 10 c1Events) 5 = some (Reg.active 1 39) ∧
    cellAt (get_roll 10 c1Events) 1 5 0 = some 78 := by decide

/-- C2: a note_off whose register slot is Inactive is not a no-op: the
source unpacks `register_note[msg.note]` unguarded, raising `TypeError` on
the integer `-1`. -/
theorem c2_note_off_inactive_raises :
    errOf (get_roll 10 [[msgNoteOff 60 0]]) = some "TypeError" := by decide

/-- C4: an `UnknownMetaMessage` is *not* silently skipped: the guard
`type(msg) != type(mido.UnknownMetaMessage)` compares the message's class
with the metaclass, which is never equal, so the unknown meta message is
recorded into `self.meta` under its type name. -/
theorem c4_unknown_meta_recorded :
    events_meta [[msgUnknownMeta]] "unknown_meta" = some msgUnknownMeta := by decide

/-- C4 (root cause): the demultiplexer's unknown-meta guard is vacuous — no
message instance's Python type equals the metaclass. -/
theorem c4_guard_always_true (m : Msg) :
    pyTypeOf m ≠ pyTypeOfUnknownMetaMessageClass := by
  unfold pyTypeOf pyTypeOfUnknownMetaMessageClass
  intro h
  cases h

/-- C5: a `control_change` with control 11 and value `v` sets
`volume = volume * (v // 127)`; for `v < 127` the factor is 0, the zero
volume persists through any messages that are not a control-7
control_change, and every note_on processed at zero volume computes
intensity 0 regardless of its velocity. -/
theorem c5_cc11_expression :
    (∀ (sr idx : Nat) (s : RollState) (m : Msg) (s' : RollState),
        m.type = "control_change" → m.control = 11 →
        step sr idx s m = Except.ok s' →
        s'.volume = s.volume * (m.value / 127)) ∧
    (∀ (sr idx : Nat) (s : RollState) (m : Msg) (s' : RollState),
        m.type = "control_change" → m.control = 11 → m.value < 127 →
        step sr idx s m = Except.ok s' → s'.volume = 0) ∧
    (∀ (sr idx : Nat) (msgs : List Msg) (s s' : RollState), s.volume = 0 →
        (∀ x ∈ msgs, ¬(x.type = "control_change" ∧ x.control = 7)) →
        runMsgs sr idx s msgs = Except.ok s' → s'.volume = 0) ∧
    (∀ (s : RollState) (m : Msg), s.volume = 0 → msgIntensity s m = 0) := by
  refine ⟨?_, ?_, ?_, ?_⟩
  · intro sr idx s m s' hm hc h
    rw [(step_fields sr idx s m s' h).2.2.2.2.1, stepCC_volume_cc11 m s hm hc]
  · intro sr idx s m s' hm hc hv h
    rw [(step_fields sr idx s m s' h).2.2.2.2.1, stepCC_volume_cc11 m s hm hc,
      Nat.div_eq_of_lt hv, Nat.mul_zero]
  · exact fun sr idx msgs s s' h0 hno h => runMsgs_volume_zero sr idx msgs s s' h0 hno h
  · intro s m h0
    unfold msgIntensity
    rw [h0, Nat.zero_mul, Nat.zero_div]

/-- Witness for C5 at a concrete input: CC11 with value 100 zeroes the
volume (`100 // 127 = 0`). -/
theorem c5_witness :
    (msgCC 11 100 0).type = "control_change" ∧ (msgCC 11 100 0).control = 11 ∧
    (msgCC 11 100 0).value < 127 ∧
    ({ initRollState 1 1 with volume := 0, time_counter := 0 } : RollState).volume = 0 :=
  ⟨rfl, rfl, by decide,
    c5_cc11_expression.2.1 10 0 (initRollState 1 1) (msgCC 11 100 0)
      { initRollState 1 1 with volume := 0, time_counter := 0 } rfl rfl (by decide) rfl⟩

theorem tick2second_zero (tpb tempo : Nat) : tick2second 0 tpb tempo = 0 := by
  unfold tick2second
  simp

theorem midiFileInit_error_of_total_zero (sr tpb : Nat) (tracks : List (List Msg))
    (st : RollState) (h : get_roll sr (get_events tracks).1 = Except.ok st)
    (htot : get_total_ticks (get_events tracks).1 = 0) :
    midiFileInit sr tpb tracks = Except.error "ZeroDivisionError" := by
  unfold midiFileInit
  dsimp only
  rw [h]
  dsimp only
  rw [htot, tick2second_zero, if_pos rfl]

/-- C3 (counterexample): with zero non-empty channels, constructing the
performance object does not succeed — `__init__` raises
`ZeroDivisionError` computing `ticks_per_sec`. -/
theorem c3_init_raises_on_empty :
    initErr (midiFileInit 10 480 []) = some "ZeroDivisionError" := by decide

/-- C3 (amended): with zero non-empty channels the *rasterizer* does
produce a defined zero-row, zero-column roll without failure, but the
performance constructor then fails with `ZeroDivisionError` computing
`ticks_per_sec`; the constructor fails the same way whenever
`total_ticks = 0`. -/
theorem c3_empty_performance :
    (∀ (sr tpb : Nat) (tracks : List (List Msg)), (get_events tracks).2 = 0 →
        (∃ st, get_roll sr (get_events tracks).1 = Except.ok st ∧
            st.roll.nch = 0 ∧ st.roll.ncols = 0) ∧
        midiFileInit sr tpb tracks = Except.error "ZeroDivisionError") ∧
    (∀ (sr tpb : Nat) (tracks : List (List Msg)) (st : RollState),
        get_roll sr (get_events tracks).1 = Except.ok st →
        get_total_ticks (get_events tracks).1 = 0 →
        midiFileInit sr tpb tracks = Except.error "ZeroDivisionError") := by
  constructor
  · intro sr tpb tracks h0
    have hev : (get_events tracks).1 = [] := List.length_eq_zero.mp h0
    constructor
    · refine ⟨initRollState 0 (get_total_ticks (get_events tracks).1 / sr), ?_, rfl, ?_⟩
      · rw [hev]
        rfl
      · show get_total_ticks (get_events tracks).1 / sr = 0
        rw [hev]
        exact Nat.zero_div sr
    · exact midiFileInit_error_of_total_zero sr tpb tracks
        (initRollState 0 (get_total_ticks (get_events tracks).1 / sr))
        (by rw [hev]; rfl) (by rw [hev]; rfl)
  · exact midiFileInit_error_of_total_zero

/-- Witness for C3 at the concrete empty input. -/
theorem c3_witness :
    (get_events ([] : List (List Msg))).2 = 0 ∧
    ((∃ st, get_roll 10 (get_events ([] : List (List Msg))).1 = Except.ok st ∧
        st.roll.nch = 0 ∧ st.roll.ncols = 0) ∧
      midiFileInit 10 480 [] = Except.error "ZeroDivisionError") :=
  ⟨by decide, c3_empty_performance.1 10 480 [] (by decide)⟩

/-- The loop body of `get_total_ticks`, factored for reasoning. -/
def ttf (max_ticks : Nat) (channel : List Msg) : Nat :=
  let ticks := (channel.map Msg.time).sum
  if ticks > max_ticks then ticks else max_ticks

theorem get_total_ticks_eq (events : List (List Msg)) :
    get_total_ticks events = events.foldl ttf 0 := rfl

theorem ttf_spec (l : List (List Msg)) : ∀ a : Nat,
    a ≤ l.foldl ttf a ∧
    (∀ ch ∈ l, (ch.map Msg.time).sum ≤ l.foldl ttf a) ∧
    (l.foldl ttf a = a ∨ ∃ ch ∈ l, l.foldl ttf a = (ch.map Msg.time).sum) := by
  induction l with
  | nil => exact fun a => ⟨Nat.le_refl a, by simp, Or.inl rfl⟩
  | cons ch rest ih =>
      intro a
      rw [List.foldl_cons]
      obtain ⟨iha, ihmem, ihatt⟩ := ih (ttf a ch)
      have hfa : a ≤ ttf a ch := by unfold ttf; dsimp only; split <;> omega
      have hfs : (ch.map Msg.time).sum ≤ ttf a ch := by
        unfold ttf; dsimp only; split <;> omega
      refine ⟨Nat.le_trans hfa iha, ?_, ?_⟩
      · intro ch' hch'
        rcases List.mem_cons.mp hch' with hh | ht
        · subst hh
          exact Nat.le_trans hfs iha
        · exact ihmem ch' ht
      · rcases ihatt with heq | ⟨ch', hch', heq⟩
        · by_cases hgt : (ch.map Msg.time).sum > a
          · refine Or.inr ⟨ch, List.mem_cons_self ch rest, ?_⟩
            rw [heq]
            unfold ttf
            dsimp only
            rw [if_pos hgt]
          · refine Or.inl ?_
            rw [heq]
            unfold ttf
            dsimp only
            rw [if_neg hgt]
        · exact Or.inr ⟨ch', List.mem_cons_of_mem ch hch', heq⟩

/-- C6: for a successfully rasterized performance, the roll has one channel
row per retained (non-empty) channel, 128 pitch rows, and
`total_ticks // sr` time bins, where `total_ticks` is the maximum over the
retained channels of that channel's summed delta-ticks (an upper bound that
is attained whenever any channel exists). -/
theorem c6_shape (sr : Nat) (tracks : List (List Msg)) (st : RollState)
    (h : get_roll sr (get_events tracks).1 = Except.ok st) :
    st.roll.npitch = 128 ∧
    st.roll.nch = (get_events tracks).2 ∧
    st.roll.ncols = get_total_ticks (get_events tracks).1 / sr ∧
    (get_events tracks).2 = (demux tracks).events.countP (fun c => !c.isEmpty) ∧
    (∀ ch ∈ (get_events tracks).1,
        (ch.map Msg.time).sum ≤ get_total_ticks (get_events tracks).1) ∧
    ((get_events tracks).1 ≠ [] →
        ∃ ch ∈ (get_events tracks).1,
          get_total_ticks (get_events tracks).1 = (ch.map Msg.time).sum) := by
  obtain ⟨hn, hp, hc, _⟩ := get_roll_dims sr (get_events tracks).1 st h
  obtain ⟨_, hmem, hatt⟩ := ttf_spec (get_events tracks).1 0
  refine ⟨hp, hn, hc, (List.countP_eq_length_filter _ _).symm, ?_, ?_⟩
  · intro ch hch
    rw [get_total_ticks_eq]
    exact hmem ch hch
  · intro hne
    rcases hatt with heq | ⟨ch, hch, heq⟩
    · obtain ⟨ch0, rest0, hl⟩ := List.exists_cons_of_ne_nil hne
      refine ⟨ch0, by rw [hl]; exact List.mem_cons_self ch0 rest0, ?_⟩
      have hle : (ch0.map Msg.time).sum ≤ get_total_ticks (get_events tracks).1 := by
        rw [get_total_ticks_eq]
        exact hmem ch0 (by rw [hl]; exact List.mem_cons_self ch0 rest0)
      rw [get_total_ticks_eq, heq] at hle ⊢
      omega
    · exact ⟨ch, hch, by rw [get_total_ticks_eq, heq]⟩

/-- The single-channel scenario input used as concrete witness data. -/
def c6Tracks : List (List Msg) := [[msgNoteOn 60 127 0, msgNoteOff 60 100]]

/-- Witness for C6 at a concrete successful run. -/
theorem c6_witness :
    get_roll 10 (get_events c6Tracks).1 =
      Except.ok (okState (get_roll 10 (get_events c6Tracks).1)) ∧
    (okState (get_roll 10 (get_events c6Tracks).1)).roll.npitch = 128 ∧
    (okState (get_roll 10 (get_events c6Tracks).1)).roll.nch = (get_events c6Tracks).2 ∧
    (okState (get_roll 10 (get_events c6Tracks).1)).roll.ncols =
      get_total_ticks (get_events c6Tracks).1 / 10 :=
  ⟨rfl,
    (c6_shape 10 c6Tracks (okState (get_roll 10 (get_events c6Tracks).1)) rfl).1,
    (c6_shape 10 c6Tracks (okState (get_roll 10 (get_events c6Tracks).1)) rfl).2.1,
    (c6_shape 10 c6Tracks (okState (get_roll 10 (get_events c6Tracks).1)) rfl).2.2.1⟩

/-- C7: a note_on for a pitch whose register slot is `Active(pe, pi)` first
paints `[pe, end_bin)` of this channel's row with `pi` (clipped at the time
axis), leaves every other cell unchanged, and then re-registers the pitch
as `Active(end_bin, intensity)` with
`end_bin = (time_counter + delta) // sr` — so the boundary between the two
adjacent segments is exactly the second event's `end_bin`. -/
theorem c7_retrigger (sr idx : Nat) (s : RollState) (m : Msg) (pe pi : Nat)
    (hm : m.type = "note_on") (hn : m.note < 128)
    (hlen : s.register_note.length = 128)
    (hreg : s.register_note.getD m.note Reg.inactive = Reg.active pe pi) :
    ∃ s', step sr idx s m = Except.ok s' ∧
      s'.register_note.getD m.note Reg.inactive =
        Reg.active ((s.time_counter + m.time) / sr) (msgIntensity s m) ∧
      (∀ t, pe ≤ t → t < min ((s.time_counter + m.time) / sr) s.roll.ncols →
          s'.roll.data idx m.note t = toInt8 (pi : Int)) ∧
      (∀ c p t,
          ¬(c = idx ∧ p = m.note ∧ pe ≤ t ∧
              t < min ((s.time_counter + m.time) / sr) s.roll.ncols) →
          s'.roll.data c p t = s.roll.data c p t) ∧
      s'.time_counter = s.time_counter + m.time := by
  have hcc : stepCC m s = s := stepCC_of_ne m s (by rw [hm]; decide)
  have hpc : stepPC idx m s = s := stepPC_of_ne idx m s (by rw [hm]; decide)
  have hon : stepNoteOn sr idx m s =
      { s with
        roll := s.roll.paint idx m.note pe ((s.time_counter + m.time) / sr) pi,
        register_note := s.register_note.set m.note
          (Reg.active ((s.time_counter + m.time) / sr) (msgIntensity s m)),
        intensity_range := updateIntensityRange s.intensity_range (msgIntensity s m),
        note_range := updateNoteRange s.note_range m.note } := by
    unfold stepNoteOn
    rw [if_pos hm]
    dsimp only
    rw [hreg]
  have hstep : step sr idx s m = Except.ok
      { s with
        roll := s.roll.paint idx m.note pe ((s.time_counter + m.time) / sr) pi,
        register_note := s.register_note.set m.note
          (Reg.active ((s.time_counter + m.time) / sr) (msgIntensity s m)),
        intensity_range := updateIntensityRange s.intensity_range (msgIntensity s m),
        note_range := updateNoteRange s.note_range m.note,
        time_counter := s.time_counter + m.time } := by
    unfold step
    rw [hcc, hpc, hon, stepNoteOff_of_ne sr idx m _ (by rw [hm]; decide)]
  refine ⟨_, hstep, ?_, ?_, ?_, rfl⟩
  · show (s.register_note.set m.note
        (Reg.active ((s.time_counter + m.time) / sr) (msgIntensity s m))).getD
        m.note Reg.inactive = _
    exact set_getD_same s.register_note m.note _ Reg.inactive (by rw [hlen]; exact hn)
  · intro t h1 h2
    show (s.roll.paint idx m.note pe ((s.time_counter + m.time) / sr) pi).data
        idx m.note t = toInt8 (pi : Int)
    unfold Roll.paint
    dsimp only
    rw [if_pos ⟨rfl, rfl, h1, h2⟩]
  · intro c p t hcond
    show (s.roll.paint idx m.note pe ((s.time_counter + m.time) / sr) pi).data
        c p t = s.roll.data c p t
    unfold Roll.paint
    dsimp only
    rw [if_neg hcond]

/-- A concrete state with pitch 60 registered `Active(0, 50)`. -/
def c7State : RollState :=
  { initRollState 1 2 with
    register_note := (List.replicate 128 Reg.inactive).set 60 (Reg.active 0 50) }

/-- Witness for C7 at a concrete re-trigger: the previously registered
segment's intensity 50 is painted at the old end bin. -/
theorem c7_witness :
    ((msgNoteOn 60 100 15).type = "note_on" ∧
      c7State.register_note.getD 60 Reg.inactive = Reg.active 0 50) ∧
    (∃ s', step 10 0 c7State (msgNoteOn 60 100 15) = Except.ok s' ∧
        s'.roll.data 0 60 0 = 50) := by
  refine ⟨⟨rfl, by decide⟩, ?_⟩
  obtain ⟨s', hs, hreg, hpaint, hframe, htc⟩ :=
    c7_retrigger 10 0 c7State (msgNoteOn 60 100 15) 0 50 rfl (by decide) (by decide)
      (by decide)
  exact ⟨s', hs, (hpaint 0 (by decide) (by decide)).trans (by decide)⟩

/-- C9: a note_on with velocity 0 is handled by the note_on branch: it
computes intensity 0, tightens `intensity_range` with 0 and `note_range`
with its pitch, paints a previously Active segment for that pitch if any
(and leaves the roll untouched otherwise), and sets the register slot to
`Active(end_bin, 0)` — never to Inactive. -/
theorem c9_velocity_zero (sr idx : Nat) (s : RollState) (m : Msg)
    (hm : m.type = "note_on") (hv : m.velocity = 0) (hn : m.note < 128)
    (hlen : s.register_note.length = 128) :
    ∃ s', step sr idx s m = Except.ok s' ∧
      msgIntensity s m = 0 ∧
      s'.register_note.getD m.note Reg.inactive =
        Reg.active ((s.time_counter + m.time) / sr) 0 ∧
      s'.intensity_range.1 = 0 ∧
      s'.intensity_range.2 = s.intensity_range.2 ∧
      s'.note_range.1 = min s.note_range.1 m.note ∧
      s'.note_range.2 = max s.note_range.2 m.note ∧
      (s.register_note.getD m.note Reg.inactive = Reg.inactive →
          s'.roll = s.roll) ∧
      (∀ pe pi, s.register_note.getD m.note Reg.inactive = Reg.active pe pi →
          ∀ t, pe ≤ t → t < min ((s.time_counter + m.time) / sr) s.roll.ncols →
              s'.roll.data idx m.note t = toInt8 (pi : Int)) := by
  have hint : msgIntensity s m = 0 := by
    unfold msgIntensity
    rw [hv, Nat.mul_zero, Nat.zero_div]
  have hcc : stepCC m s = s := stepCC_of_ne m s (by rw [hm]; decide)
  have hpc : stepPC idx m s = s := stepPC_of_ne idx m s (by rw [hm]; decide)
  have hon : stepNoteOn sr idx m s =
      { s with
        roll :=
          match s.register_note.getD m.note Reg.inactive with
          | Reg.inactive => s.roll
          | Reg.active last_end_time last_intensity =>
              s.roll.paint idx m.note last_end_time
                ((s.time_counter + m.time) / sr) last_intensity,
        register_note := s.register_note.set m.note
          (Reg.active ((s.time_counter + m.time) / sr) (msgIntensity s m)),
        intensity_range := updateIntensityRange s.intensity_range (msgIntensity s m),
        note_range := updateNoteRange s.note_range m.note } := by
    unfold stepNoteOn
    rw [if_pos hm]
  have hstep : step sr idx s m = Except.ok
      { s with
        roll :=
          match s.register_note.getD m.note Reg.inactive with
          | Reg.inactive => s.roll
          | Reg.active last_end_time last_intensity =>
              s.roll.paint idx m.note last_end_time
                ((s.time_counter + m.time) / sr) last_intensity,
        register_note := s.register_note.set m.note
          (Reg.active ((s.time_counter + m.time) / sr) (msgIntensity s m)),
        intensity_range := updateIntensityRange s.intensity_range (msgIntensity s m),
        note_range := updateNoteRange s.note_range m.note,
        time_counter := s.time_counter + m.time } := by
    unfold step
    rw [hcc, hpc, hon, stepNoteOff_of_ne sr idx m _ (by rw [hm]; decide)]
  refine ⟨_, hstep, hint, ?_, ?_, ?_, ?_, ?_, ?_, ?_⟩
  · show (s.register_note.set m.note
        (Reg.active ((s.time_counter + m.time) / sr) (msgIntensity s m))).getD
        m.note Reg.inactive = _
    rw [set_getD_same s.register_note m.note _ Reg.inactive (by rw [hlen]; exact hn),
      hint]
  · show (updateIntensityRange s.intensity_range (msgIntensity s m)).1 = 0
    rw [hint]
    unfold updateIntensityRange
    dsimp only
    split <;> omega
  · show (updateIntensityRange s.intensity_range (msgIntensity s m)).2 =
        s.intensity_range.2
    rw [hint]
    unfold updateIntensityRange
    dsimp only
    split <;> omega
  · show (updateNoteRange s.note_range m.note).1 = min s.note_range.1 m.note
    unfold updateNoteRange
    dsimp only
    split <;> omega
  · show (updateNoteRange s.note_range m.note).2 = max s.note_range.2 m.note
    unfold updateNoteRange
    dsimp only
    split <;> omega
  · intro hregI
    show (match s.register_note.getD m.note Reg.inactive with
        | Reg.inactive => s.roll
        | Reg.active last_end_time last_intensity =>
            s.roll.paint idx m.note last_end_time
              ((s.time_counter + m.time) / sr) last_intensity) = s.roll
    rw [hregI]
  · intro pe pi hregA t h1 h2
    show (match s.register_note.getD m.note Reg.inactive with
        | Reg.inactive => s.roll
        | Reg.active last_end_time last_intensity =>
            s.roll.paint idx m.note last_end_time
              ((s.time_counter + m.time) / sr) last_intensity).data idx m.note t =
        toInt8 (pi : Int)
    rw [hregA]
    unfold Roll.paint
    dsimp only
    rw [if_pos ⟨rfl, rfl, h1, h2⟩]

/-- Witness for C9 at a concrete velocity-0 note_on. -/
theorem c9_witness :
    ((msgNoteOn 64 0 0).type = "note_on" ∧ (msgNoteOn 64 0 0).velocity = 0) ∧
    (∃ s', step 10 0 (initRollState 1 1) (msgNoteOn 64 0 0) = Except.ok s' ∧
        s'.register_note.getD 64 Reg.inactive = Reg.active 0 0 ∧
        s'.intensity_range.1 = 0) := by
  refine ⟨⟨rfl, rfl⟩, ?_⟩
  obtain ⟨s', hs, hint, hreg, hir1, _, _, _, _, _⟩ :=
    c9_velocity_zero 10 0 (initRollState 1 1) (msgNoteOn 64 0 0) rfl rfl (by decide)
      (by decide)
  exact ⟨s', hs, hreg, hir1⟩

/-! ## Range-tracker invariants (C8) -/

/-- The two ranges only tighten from `s` to `s'`. -/
def rangesMono (s s' : RollState) : Prop :=
  s'.intensity_range.1 ≤ s.intensity_range.1 ∧
  s.intensity_range.2 ≤ s'.intensity_range.2 ∧
  s'.note_range.1 ≤ s.note_range.1 ∧ s.note_range.2 ≤ s'.note_range.2

/-- The two ranges are untouched from `s` to `s'`. -/
def rangesEq (s s' : RollState) : Prop :=
  s'.intensity_range = s.intensity_range ∧ s'.note_range = s.note_range

/-- Each range's min does not exceed its max. -/
def tightRanges (s : RollState) : Prop :=
  s.intensity_range.1 ≤ s.intensity_range.2 ∧ s.note_range.1 ≤ s.note_range.2

theorem rangesMono_trans {s s1 s' : RollState} (h1 : rangesMono s s1)
    (h2 : rangesMono s1 s') : rangesMono s s' := by
  obtain ⟨a, b, c, d⟩ := h1
  obtain ⟨a2, b2, c2, d2⟩ := h2
  exact ⟨Nat.le_trans a2 a, Nat.le_trans b b2, Nat.le_trans c2 c, Nat.le_trans d d2⟩

theorem rangesEq_mono {s s' : RollState} (h : rangesEq s s') : rangesMono s s' := by
  obtain ⟨a, b⟩ := h
  exact ⟨by rw [a], by rw [a], by rw [b], by rw [b]⟩

theorem rangesEq_tight {s s' : RollState} (h : rangesEq s s') (ht : tightRanges s) :
    tightRanges s' := by
  obtain ⟨a, b⟩ := h
  exact ⟨by rw [a]; exact ht.1, by rw [b]; exact ht.2⟩

theorem step_tight (sr idx : Nat) (s : RollState) (m : Msg) (s' : RollState)
    (h : step sr idx s m = Except.ok s') (ht : tightRanges s) : tightRanges s' := by
  obtain ⟨_, _, _, _, hne, hon⟩ := step_ranges sr idx s m s' h
  by_cases hm : m.type = "note_on"
  · exact hon hm
  · exact rangesEq_tight (hne hm) ht

theorem runMsgs_ranges (sr idx : Nat) (msgs : List Msg) :
    ∀ s s', runMsgs sr idx s msgs = Except.ok s' →
      rangesMono s s' ∧
      ((∀ m ∈ msgs, m.type ≠ "note_on") → rangesEq s s') ∧
      (tightRanges s → tightRanges s') ∧
      ((∃ m ∈ msgs, m.type = "note_on") → tightRanges s') := by
  induction msgs with
  | nil =>
      intro s s' h
      injection h with h
      subst h
      exact ⟨⟨Nat.le_refl _, Nat.le_refl _, Nat.le_refl _, Nat.le_refl _⟩,
        fun _ => ⟨rfl, rfl⟩, id, fun hex => absurd hex (by simp)⟩
  | cons m rest ih =>
      intro s s' h
      unfold runMsgs at h
      split at h
      · exact absurd h (by simp)
      · next s1 heq =>
          obtain ⟨ihmono, iheq, ihtight, ihex⟩ := ih s1 s' h
          obtain ⟨a, b, c, d, hne, hon⟩ := step_ranges sr idx s m s1 heq
          refine ⟨rangesMono_trans ⟨a, b, c, d⟩ ihmono, ?_, ?_, ?_⟩
          · intro hno
            obtain ⟨e1, e2⟩ := hne (hno m (List.mem_cons_self m rest))
            obtain ⟨f1, f2⟩ := iheq (fun x hx => hno x (List.mem_cons_of_mem m hx))
            exact ⟨f1.trans e1, f2.trans e2⟩
          · exact fun ht => ihtight (step_tight sr idx s m s1 heq ht)
          · rintro ⟨m0, hm0, hty⟩
            rcases List.mem_cons.mp hm0 with hh | htl
            · subst hh
              exact ihtight (hon hty)
            · exact ihex ⟨m0, htl, hty⟩

theorem closeChannel_rangesEq (idx : Nat) (s : RollState) :
    rangesEq s (closeChannel idx s) := by
  obtain ⟨_, _, _, _, _, _, g, i⟩ := closeChannel_fields idx s
  exact ⟨g, i⟩

theorem runChannel_ranges (sr idx : Nat) (s : RollState) (ch : List Msg)
    (s' : RollState) (h : runChannel sr idx s ch = Except.ok s') :
    rangesMono s s' ∧
    ((∀ m ∈ ch, m.type ≠ "note_on") → rangesEq s s') ∧
    (tightRanges s → tightRanges s') ∧
    ((∃ m ∈ ch, m.type = "note_on") → tightRanges s') := by
  unfold runChannel at h
  split at h
  · exact absurd h (by simp)
  · next s1 heq =>
      injection h with h
      subst h
      obtain ⟨hmono, heqr, htight, hex⟩ :=
        runMsgs_ranges sr idx ch { s with time_counter := 0, volume := 100 } s1 heq
      have hcl := closeChannel_rangesEq idx s1
      refine ⟨rangesMono_trans hmono (rangesEq_mono hcl), ?_, ?_, ?_⟩
      · intro hno
        obtain ⟨a, b⟩ := heqr hno
        obtain ⟨c, d⟩ := hcl
        exact ⟨c.trans a, d.trans b⟩
      · exact fun ht => rangesEq_tight hcl (htight ht)
      · exact fun hx => rangesEq_tight hcl (hex hx)

theorem runChannels_ranges (sr : Nat) (chs : List (List Msg)) :
    ∀ idx s s', runChannels sr s idx chs = Except.ok s' →
      rangesMono s s' ∧
      ((∀ ch ∈ chs, ∀ m ∈ ch, m.type ≠ "note_on") → rangesEq s s') ∧
      (tightRanges s → tightRanges s') ∧
      ((∃ ch ∈ chs, ∃ m ∈ ch, m.type = "note_on") → tightRanges s') := by
  induction chs with
  | nil =>
      intro idx s s' h
      injection h with h
      subst h
      exact ⟨⟨Nat.le_refl _, Nat.le_refl _, Nat.le_refl _, Nat.le_refl _⟩,
        fun _ => ⟨rfl, rfl⟩, id, fun hex => absurd hex (by simp)⟩
  | cons ch rest ih =>
      intro idx s s' h
      unfold runChannels at h
      split at h
      · exact absurd h (by simp)
      · next s1 heq =>
          obtain ⟨ihmono, iheq, ihtight, ihex⟩ := ih (idx + 1) s1 s' h
          obtain ⟨hmono, heqr, htight, hex⟩ := runChannel_ranges sr idx s ch s1 heq
          refine ⟨rangesMono_trans hmono ihmono, ?_, ?_, ?_⟩
          · intro hno
            obtain ⟨e1, e2⟩ := heqr (hno ch (List.mem_cons_self ch rest))
            obtain ⟨f1, f2⟩ := iheq (fun x hx => hno x (List.mem_cons_of_mem ch hx))
            exact ⟨f1.trans e1, f2.trans e2⟩
          · exact fun ht => ihtight (htight ht)
          · rintro ⟨ch0, hch0, hm0⟩
            rcases List.mem_cons.mp hch0 with hh | htl
            · subst hh
              exact ihtight (hex hm0)
            · exact ihex ⟨ch0, htl, hm0⟩

/-- C8: the ranges start at the sentinels `[100, 0]` and `[127, 0]`; every
processed event only tightens them and only note_on events touch them; for
a successful rasterization with no note_on anywhere they remain at the
sentinels, and with at least one note_on each range has min ≤ max. -/
theorem c8_range_invariants :
    (∀ nch ncols, (initRollState nch ncols).intensity_range = (100, 0) ∧
        (initRollState nch ncols).note_range = (127, 0)) ∧
    (∀ (sr idx : Nat) (s : RollState) (m : Msg) (s' : RollState),
        step sr idx s m = Except.ok s' →
        s'.intensity_range.1 ≤ s.intensity_range.1 ∧
        s.intensity_range.2 ≤ s'.intensity_range.2 ∧
        s'.note_range.1 ≤ s.note_range.1 ∧ s.note_range.2 ≤ s'.note_range.2 ∧
        (m.type ≠ "note_on" →
            s'.intensity_range = s.intensity_range ∧
            s'.note_range = s.note_range)) ∧
    (∀ (sr : Nat) (events : List (List Msg)) (st : RollState),
        get_roll sr events = Except.ok st →
        ((∀ ch ∈ events, ∀ m ∈ ch, m.type ≠ "note_on") →
            st.intensity_range = (100, 0) ∧ st.note_range = (127, 0)) ∧
        ((∃ ch ∈ events, ∃ m ∈ ch, m.type = "note_on") →
            st.intensity_range.1 ≤ st.intensity_range.2 ∧
            st.note_range.1 ≤ st.note_range.2)) := by
  refine ⟨fun nch ncols => ⟨rfl, rfl⟩, ?_, ?_⟩
  · intro sr idx s m s' h
    obtain ⟨a, b, c, d, hne, _⟩ := step_ranges sr idx s m s' h
    exact ⟨a, b, c, d, hne⟩
  · intro sr events st h
    unfold get_roll at h
    obtain ⟨_, heqr, _, hex⟩ := runChannels_ranges sr events 0
      (initRollState events.length (get_total_ticks events / sr)) st h
    constructor
    · intro hno
      obtain ⟨a, b⟩ := heqr hno
      exact ⟨a, b⟩
    · exact fun hx => hex hx

/-- Witness for C8 at a concrete run containing a note_on. -/
theorem c8_witness :
    get_roll 10 [[msgNoteOn 60 127 0, msgNoteOff 60 100]] =
      Except.ok (okState (get_roll 10 [[msgNoteOn 60 127 0, msgNoteOff 60 100]])) ∧
    (∃ ch ∈ [[msgNoteOn 60 127 0, msgNoteOff 60 100]],
        ∃ m ∈ ch, m.type = "note_on") ∧
    (okState (get_roll 10 [[msgNoteOn 60 127 0, msgNoteOff 60 100]])).intensity_range.1 ≤
      (okState (get_roll 10 [[msgNoteOn 60 127 0, msgNoteOff 60 100]])).intensity_range.2 :=
  ⟨rfl, by decide,
    ((c8_range_invariants.2.2 10 [[msgNoteOn 60 127 0, msgNoteOff 60 100]]
      (okState (get_roll 10 [[msgNoteOn 60 127 0, msgNoteOff 60 100]])) rfl).2
      (by decide)).1⟩

/-! ## Numerical invariants (C10) -/

theorem set_getD_cases {α : Type} (l : List α) (i n : Nat) (a d : α) :
    (l.set i a).getD n d = if i = n ∧ i < l.length then a else l.getD n d := by
  by_cases h1 : i = n
  · subst h1
    by_cases h2 : i < l.length
    · rw [set_getD_same l i a d h2, if_pos ⟨rfl, h2⟩]
    · rw [if_neg (fun hc => h2 hc.2), List.set_eq_of_length_le (Nat.le_of_not_lt h2)]
  · rw [set_getD_ne l i n a d h1, if_neg (fun hc => h1 hc.1)]

/-- A register slot's recorded intensity is at most 100. -/
def RegOK : Reg → Prop
  | Reg.inactive => True
  | Reg.active _ i => i ≤ 100

/-- All 128 (and out-of-range default) register slots are `RegOK`. -/
def regsOK (l : List Reg) : Prop := ∀ n : Nat, RegOK (l.getD n Reg.inactive)

/-- Every cell of the roll holds a value in `[0, 100]`. -/
def cellsOK (r : Roll) : Prop := ∀ c p t, 0 ≤ r.data c p t ∧ r.data c p t ≤ 100

/-- The rasterizer's numerical invariant: volume in `[0, 100]`, registered
intensities in `[0, 100]`, all painted cells in `[0, 100]`. -/
def rollInv (s : RollState) : Prop :=
  s.volume ≤ 100 ∧ regsOK s.register_note ∧ cellsOK s.roll

theorem toInt8_id (v : Int) (h0 : 0 ≤ v) (h1 : v ≤ 127) : toInt8 v = v := by
  unfold toInt8
  omega

theorem paint_cellsOK (r : Roll) (c p a b v : Nat) (h : cellsOK r) (hv : v ≤ 100) :
    cellsOK (r.paint c p a b v) := by
  intro c' p' t
  unfold Roll.paint
  dsimp only
  split
  · unfold toInt8
    omega
  · exact h c' p' t

theorem regsOK_set (l : List Reg) (i : Nat) (r : Reg) (h : regsOK l) (hr : RegOK r) :
    regsOK (l.set i r) := by
  intro n
  rw [set_getD_cases]
  split
  · exact hr
  · exact h n

theorem msgIntensity_le (s : RollState) (m : Msg) (hvol : s.volume ≤ 100)
    (hvel : m.velocity ≤ 127) : msgIntensity s m ≤ 100 := by
  unfold msgIntensity
  calc s.volume * m.velocity / 127 ≤ 100 * 127 / 127 :=
        Nat.div_le_div_right (Nat.mul_le_mul hvol hvel)
    _ = 100 := by norm_num

theorem stepNoteOn_inv (sr idx : Nat) (m : Msg) (s : RollState)
    (hvel : m.velocity ≤ 127) (hinv : rollInv s) :
    rollInv (stepNoteOn sr idx m s) := by
  obtain ⟨hvol, hregs, hcells⟩ := hinv
  unfold stepNoteOn
  split
  · dsimp only
    refine ⟨hvol, ?_, ?_⟩
    · exact regsOK_set _ _ _ hregs (msgIntensity_le s m hvol hvel)
    · show cellsOK (match s.register_note.getD m.note Reg.inactive with
        | Reg.inactive => s.roll
        | Reg.active last_end_time last_intensity =>
            s.roll.paint idx m.note last_end_time
              ((s.time_counter + m.time) / sr) last_intensity)
      split
      · exact hcells
      · next le li heq =>
          have hli := hregs m.note
          rw [heq] at hli
          exact paint_cellsOK s.roll idx m.note le _ li hcells hli
  · exact ⟨hvol, hregs, hcells⟩

theorem stepNoteOff_inv (sr idx : Nat) (m : Msg) (s s' : RollState)
    (hinv : rollInv s) (h : stepNoteOff sr idx m s = Except.ok s') :
    rollInv s' := by
  obtain ⟨hvol, hregs, hcells⟩ := hinv
  unfold stepNoteOff at h
  split at h
  · split at h
    · exact absurd h (by simp)
    · next le li heq =>
        injection h with h
        subst h
        have hli := hregs m.note
        rw [heq] at hli
        exact ⟨hvol, regsOK_set _ _ _ hregs trivial,
          paint_cellsOK s.roll idx m.note le _ li hcells hli⟩
  · injection h with h
    subst h
    exact ⟨hvol, hregs, hcells⟩

theorem step_inv (sr idx : Nat) (s : RollState) (m : Msg) (s' : RollState)
    (hvel : m.velocity ≤ 127) (hval : m.value ≤ 127) (hinv : rollInv s)
    (h : step sr idx s m = Except.ok s') : rollInv s' := by
  obtain ⟨s4, h4, rfl⟩ := step_ok_decomp sr idx s m s' h
  have hinv1 : rollInv (stepCC m s) := by
    obtain ⟨_, hreg, _⟩ := stepCC_fields m s
    obtain ⟨hroll, _⟩ := stepCC_fields m s
    exact ⟨stepCC_volume_le m s hval hinv.1, by rw [hreg]; exact hinv.2.1,
      by rw [hroll]; exact hinv.2.2⟩
  have hinv2 : rollInv (stepPC idx m (stepCC m s)) := by
    obtain ⟨hroll, hreg, _, _, _, hvol⟩ := stepPC_fields idx m (stepCC m s)
    exact ⟨by rw [hvol]; exact hinv1.1, by rw [hreg]; exact hinv1.2.1,
      by rw [hroll]; exact hinv1.2.2⟩
  have hinv3 : rollInv (stepNoteOn sr idx m (stepPC idx m (stepCC m s))) :=
    stepNoteOn_inv sr idx m _ hvel hinv2
  have hinv4 : rollInv s4 := stepNoteOff_inv sr idx m _ s4 hinv3 h4
  exact ⟨hinv4.1, hinv4.2.1, hinv4.2.2⟩

theorem closeKey_inv (idx : Nat) (s : RollState) (key : Nat) (hinv : rollInv s) :
    rollInv (closeKey idx s key) := by
  obtain ⟨hvol, hregs, hcells⟩ := hinv
  unfold closeKey
  dsimp only
  split
  · exact ⟨hvol, regsOK_set _ _ _ hregs trivial, hcells⟩
  · next e i heq =>
      have hi := hregs key
      rw [heq] at hi
      exact ⟨hvol, regsOK_set _ _ _ hregs trivial,
        paint_cellsOK s.roll idx key e _ i hcells hi⟩

theorem closeChannel_inv (idx : Nat) (s : RollState) (hinv : rollInv s) :
    rollInv (closeChannel idx s) := by
  unfold closeChannel
  generalize List.range 128 = l
  induction l generalizing s with
  | nil => exact hinv
  | cons k ks ih =>
      rw [List.foldl_cons]
      exact ih (closeKey idx s k) (closeKey_inv idx s k hinv)

theorem runMsgs_inv (sr idx : Nat) (msgs : List Msg) :
    ∀ s s', (∀ m ∈ msgs, m.velocity ≤ 127 ∧ m.value ≤ 127) → rollInv s →
      runMsgs sr idx s msgs = Except.ok s' → rollInv s' := by
  induction msgs with
  | nil =>
      intro s s' _ hinv h
      injection h with h
      subst h
      exact hinv
  | cons m rest ih =>
      intro s s' hok hinv h
      unfold runMsgs at h
      split at h
      · exact absurd h (by simp)
      · next s1 heq =>
          obtain ⟨hvel, hval⟩ := hok m (List.mem_cons_self m rest)
          exact ih s1 s' (fun x hx => hok x (List.mem_cons_of_mem m hx))
            (step_inv sr idx s m s1 hvel hval hinv heq) h

theorem runChannel_inv (sr idx : Nat) (s : RollState) (ch : List Msg)
    (s' : RollState) (hok : ∀ m ∈ ch, m.velocity ≤ 127 ∧ m.value ≤ 127)
    (hinv : rollInv s) (h : runChannel sr idx s ch = Except.ok s') : rollInv s' := by
  unfold runChannel at h
  split at h
  · exact absurd h (by simp)
  · next s1 heq =>
      injection h with h
      subst h
      refine closeChannel_inv idx s1 ?_
      exact runMsgs_inv sr idx ch { s with time_counter := 0, volume := 100 } s1 hok
        ⟨by norm_num, hinv.2.1, hinv.2.2⟩ heq

theorem runChannels_inv (sr : Nat) (chs : List (List Msg)) :
    ∀ idx s s', (∀ ch ∈ chs, ∀ m ∈ ch, m.velocity ≤ 127 ∧ m.value ≤ 127) →
      rollInv s → runChannels sr s idx chs = Except.ok s' → rollInv s' := by
  induction chs with
  | nil =>
      intro idx s s' _ hinv h
      injection h with h
      subst h
      exact hinv
  | cons ch rest ih =>
      intro idx s s' hok hinv h
      unfold runChannels at h
      split at h
      · exact absurd h (by simp)
      · next s1 heq =>
          exact ih (idx + 1) s1 s' (fun x hx => hok x (List.mem_cons_of_mem ch hx))
            (runChannel_inv sr idx s ch s1 (hok ch (List.mem_cons_self ch rest))
              hinv heq) h

theorem initRollState_inv (nch ncols : Nat) : rollInv (initRollState nch ncols) := by
  refine ⟨?_, ?_, ?_⟩
  · show (100 : Nat) ≤ 100
    exact Nat.le_refl 100
  · intro n
    show RegOK ((List.replicate 128 Reg.inactive).getD n Reg.inactive)
    rw [getD_replicate_self]
    trivial
  · intro c p t
    exact ⟨Int.le_refl 0, by show (0 : Int) ≤ 100; norm_num⟩

/-- C10: for inputs whose velocity and control values lie in 0–127, the
running volume stays in 0–100 across every successful step (`rollInv` is
preserved), and every cell of the resulting roll matrix lies in 0–100 — in
particular each stored value is a fixed point of the `int8` wrap-around
cast, i.e. representable without overflow. -/
theorem c10_int8_in_range :
    (∀ (sr idx : Nat) (s : RollState) (m : Msg) (s' : RollState),
        m.velocity ≤ 127 → m.value ≤ 127 → rollInv s →
        step sr idx s m = Except.ok s' → rollInv s') ∧
    (∀ (sr : Nat) (events : List (List Msg)) (st : RollState),
        (∀ ch ∈ events, ∀ m ∈ ch, m.velocity ≤ 127 ∧ m.value ≤ 127) →
        get_roll sr events = Except.ok st →
        st.volume ≤ 100 ∧
        (∀ c p t, 0 ≤ st.roll.data c p t ∧ st.roll.data c p t ≤ 100) ∧
        (∀ c p t, toInt8 (st.roll.data c p t) = st.roll.data c p t)) := by
  constructor
  · exact step_inv
  · intro sr events st hok h
    unfold get_roll at h
    have hinv := runChannels_inv sr events 0
      (initRollState events.length (get_total_ticks events / sr)) st hok
      (initRollState_inv events.length (get_total_ticks events / sr)) h
    refine ⟨hinv.1, hinv.2.2, ?_⟩
    intro c p t
    obtain ⟨h0, h1⟩ := hinv.2.2 c p t
    exact toInt8_id (st.roll.data c p t) h0 (by omega)

/-- Witness for C10 at a concrete run with a control_change and a note. -/
theorem c10_witness :
    get_roll 10 [[msgCC 7 64 0, msgNoteOn 60 127 0, msgNoteOff 60 100]] =
      Except.ok (okState (get_roll 10 [[msgCC 7 64 0, msgNoteOn 60 127 0,
        msgNoteOff 60 100]])) ∧
    (∀ ch ∈ [[msgCC 7 64 0, msgNoteOn 60 127 0, msgNoteOff 60 100]],
        ∀ m ∈ ch, m.velocity ≤ 127 ∧ m.value ≤ 127) ∧
    (okState (get_roll 10 [[msgCC 7 64 0, msgNoteOn 60 127 0,
        msgNoteOff 60 100]])).volume ≤ 100 :=
  ⟨rfl, by decide,
    (c10_int8_in_range.2 10 [[msgCC 7 64 0, msgNoteOn 60 127 0, msgNoteOff 60 100]]
      (okState (get_roll 10 [[msgCC 7 64 0, msgNoteOn 60 127 0, msgNoteOff 60 100]]))
      (by decide) rfl).1⟩

end Midi
